import Mathlib

/-!
Shallow embedding of the forecasting core in
`src/backend/app/intelligence/forecast.py`.

Python floats are modelled as exact reals.  Calls into external modeling
libraries (xgboost, prophet, pmdarima, tensorflow) are modelled as oracle
parameters: a `fit` oracle returns `none` when the library is unavailable or
fitting raises, and otherwise returns the trained model's prediction
function.  Python exceptions are modelled with `Except Unit`: a fallible
function returns `.error ()` exactly where the Python code raises.
-/

noncomputable section

open Real

/-- `np.mean` of a Python list (mean of the empty list is junk, as is `0/0`). -/
def listMean (l : List ℝ) : ℝ := l.sum / l.length

/-- Python 3 `round` to an integer: round half to even (banker's rounding). -/
def pyRound (x : ℝ) : ℤ :=
  if Int.fract x = 1 / 2 then (if Even ⌊x⌋ then ⌊x⌋ else ⌊x⌋ + 1) else round x

/-- `_calculate_scale_factor` (forecast.py lines 17-41). -/
def calculate_scale_factor (prices : List ℝ) : ℝ :=
  match prices with
  | [] => 1
  | p :: ps =>
    let avg_price := listMean (p :: ps)
    if 0.01 ≤ avg_price then 1
    else
      let scale_factor : ℝ := if 0 < avg_price then 10.0 / avg_price else 1
      (10 : ℝ) ^ pyRound (Real.logb 10 scale_factor)

/-- `_scale_prices` (forecast.py lines 44-46). -/
def scale_prices (prices : List ℝ) (scale_factor : ℝ) : List ℝ :=
  prices.map fun p => p * scale_factor

/-- `_descale_prices` (forecast.py lines 49-51). -/
def descale_prices (prices : List ℝ) (scale_factor : ℝ) : List ℝ :=
  prices.map fun p => p / scale_factor

/-- The anchoring post-processing step shared by the model forecasters:
`offset = prices[-1] - predictions[0]; [p + offset for p in predictions]`.
Raises (IndexError) when `prices` or `predictions` is empty. -/
def anchor (prices predictions : List ℝ) : Except Unit (List ℝ) :=
  match prices, predictions with
  | [], _ => .error ()
  | _ :: _, [] => .error ()
  | p :: ps, q :: qs =>
    .ok ((q :: qs).map fun c => c + ((p :: ps).getLastD 0 - q))

/-- The iterative prediction loop of `_xgboost_forecast` (lines 174-189).
`model` abstracts feature construction plus `model.predict` on the last
valid feature row of the current price list.  A feature row exists iff the
current list has at least 22 elements (lag 21 plus one); below that the
last current price is appended to the predictions and the price list is
left unchanged, mirroring the `len(temp_df) == 0` branch. -/
def xgbLoop (model : List ℝ → ℝ) : ℕ → List ℝ → List ℝ
  | 0, _ => []
  | days + 1, current_prices =>
    if current_prices.length < 22 then
      current_prices.getLastD 0 :: xgbLoop model days current_prices
    else
      model current_prices :: xgbLoop model days (current_prices ++ [model current_prices])

/-- `_xgboost_forecast` (lines 110-197): train (oracle `fit`), predict
iteratively, anchor. -/
def xgboost_forecast (fit : List ℝ → Option (List ℝ → ℝ)) (prices : List ℝ)
    (days : ℕ) : Except Unit (List ℝ) :=
  match fit prices with
  | none => .error ()
  | some model => anchor prices (xgbLoop model days prices)

/-- `_prophet_forecast` (lines 200-239): fit (oracle), take the `yhat`
column of the last `days` future rows, anchor. -/
def prophet_forecast (fit : List ℝ → Option (ℕ → ℝ)) (prices : List ℝ)
    (days : ℕ) : Except Unit (List ℝ) :=
  match fit prices with
  | none => .error ()
  | some yhat => anchor prices ((List.range days).map yhat)

/-- `prices[-n:]` for `n ≤ len(prices)`. -/
def takeLast (n : ℕ) (l : List ℝ) : List ℝ := l.drop (l.length - n)

/-- `np.linspace a b n` (with the endpoint, numpy's default). -/
def npLinspace (a b : ℝ) : ℕ → List ℝ
  | 0 => []
  | 1 => [a]
  | n + 2 => (List.range (n + 2)).map fun i : ℕ => a + (b - a) * (i : ℝ) / ((n : ℝ) + 1)

/-- The slope coefficient of `np.polyfit(x, y, 1, w=w)`: the degree-1
weighted least squares fit minimising `sum ((w i * (y i - (c + m * x i)))^2)`,
in closed form from the weighted normal equations. -/
def wlsSlope (x y w : List ℝ) : ℝ :=
  let w2 := w.map fun v => v ^ 2
  let sw := w2.sum
  let sx := (List.zipWith (fun a b => a * b) w2 x).sum
  let sy := (List.zipWith (fun a b => a * b) w2 y).sum
  let sxx := (List.zipWith (fun a b => a * b) w2 (x.map fun v => v ^ 2)).sum
  let sxy := (List.zipWith (fun a b => a * b) w2 (List.zipWith (fun a b => a * b) x y)).sum
  (sw * sxy - sx * sy) / (sw * sxx - sx ^ 2)

/-- The forecast generation loop of `_simple_fallback` (lines 394-404):
`i` is the loop index, the accumulator is `last_price`. -/
def fallbackLoop (current_price slope : ℝ) : ℕ → ℕ → ℝ → List ℝ
  | 0, _, _ => []
  | days + 1, i, last_price =>
    let next_price :=
      min (max (last_price + slope * (1 - 0.05 * i)) (current_price * 0.8))
        (current_price * 1.2)
    next_price :: fallbackLoop current_price slope days (i + 1) next_price

/-- The dampened trend slope of `_simple_fallback` (lines 385-392): last
`min(14, len)` prices, exponentially increasing weights, weighted degree-1
polyfit, slope dampened by 0.6. -/
def fallbackSlope (prices : List ℝ) : ℝ :=
  wlsSlope
    ((List.range (takeLast (min 14 prices.length) prices).length).map fun i : ℕ => (i : ℝ))
    (takeLast (min 14 prices.length) prices)
    ((npLinspace 0 1 (takeLast (min 14 prices.length) prices).length).map Real.exp)
    * 0.6

/-- `_simple_fallback` (lines 376-406).  Raises (IndexError on `prices[-1]`)
when `prices` is empty. -/
def simple_fallback (prices : List ℝ) (days : ℕ) : Except Unit (List ℝ) :=
  match prices with
  | [] => .error ()
  | p :: ps =>
    if (p :: ps).length < 2 then
      .ok (List.replicate days ((p :: ps).getLastD 0))
    else
      .ok (fallbackLoop ((p :: ps).getLastD 0) (fallbackSlope (p :: ps)) days 0
        ((p :: ps).getLastD 0))

/-- The members collected by `_ensemble_forecast` (lines 312-349), paired
with their weights, in source order: Prophet (0.4), ARIMA (0.35, oracle
`af` for `auto_arima` fit plus `predict`), trend fallback (0.25).  A member
whose computation raises is skipped. -/
def ensembleMembers (pf : List ℝ → Option (ℕ → ℝ)) (af : List ℝ → Option (ℕ → ℝ))
    (prices : List ℝ) (days : ℕ) : List (List ℝ × ℝ) :=
  (([(prophet_forecast pf prices days).toOption,
      (af prices).map fun g => (List.range days).map g,
      (simple_fallback prices days).toOption]).zip [0.4, 0.35, 0.25]).filterMap
    fun mw => mw.1.map fun m => (m, mw.2)

/-- `_ensemble_forecast` (lines 307-373): weighted average of the
successful members with renormalised weights, then anchoring.  With no
members it returns `[prices[-1]] * days` directly (raising on empty
`prices`). -/
def ensemble_forecast (pf : List ℝ → Option (ℕ → ℝ)) (af : List ℝ → Option (ℕ → ℝ))
    (prices : List ℝ) (days : ℕ) : Except Unit (List ℝ) :=
  match ensembleMembers pf af prices days with
  | [] =>
    match prices with
    | [] => .error ()
    | p :: ps => .ok (List.replicate days ((p :: ps).getLastD 0))
  | m :: ms =>
    let total := ((m :: ms).map Prod.snd).sum
    let ensemble := (List.range days).map fun day =>
      ((m :: ms).map fun mw => mw.1.getD day 0 * (mw.2 / total)).sum
    anchor prices ensemble

/-- `np.min` of a non-empty list (junk 0 on the empty list). -/
def listMin : List ℝ → ℝ
  | [] => 0
  | p :: ps => ps.foldl min p

/-- `np.max` of a non-empty list (junk 0 on the empty list). -/
def listMax : List ℝ → ℝ
  | [] => 0
  | p :: ps => ps.foldl max p

/-- The scaling denominator of sklearn's `MinMaxScaler` with range (0,1):
the data range, with a zero range replaced by 1. -/
def mmDenom (mn mx : ℝ) : ℝ := if mx - mn = 0 then 1 else mx - mn

/-- The iterative prediction loop of `_lstm_forecast` (lines 285-292): each
prediction is fed back into the trailing window. -/
def lstmLoop (step : List ℝ → ℝ) : ℕ → List ℝ → List ℝ
  | 0, _ => []
  | days + 1, seq => step seq :: lstmLoop step days (seq.drop 1 ++ [step seq])

/-- `_lstm_forecast` (lines 242-305): min-max scale, train (oracle `fit`,
the trained network's one-step prediction on a scaled window), predict
iteratively, inverse transform, anchor.  With fewer than `lookback + 1 = 31`
points no training sequence exists and the reshape raises. -/
def lstm_forecast (fit : List ℝ → Option (List ℝ → ℝ)) (prices : List ℝ)
    (days : ℕ) : Except Unit (List ℝ) :=
  if prices.length < 31 then .error ()
  else
    match fit prices with
    | none => .error ()
    | some step =>
      let mn := listMin prices
      let den := mmDenom mn (listMax prices)
      let scaled := prices.map fun v => (v - mn) / den
      let predictions := lstmLoop step days (takeLast 30 scaled)
      anchor prices (predictions.map fun v => v * den + mn)

/-- The external modeling libraries available to `generate_forecast`, as
fitting oracles. -/
structure ModelEnv where
  xgbFit : List ℝ → Option (List ℝ → ℝ)
  prophetFit : List ℝ → Option (ℕ → ℝ)
  arimaFit : List ℝ → Option (ℕ → ℝ)
  lstmFit : List ℝ → Option (List ℝ → ℝ)

/-- `generate_forecast` (forecast.py lines 54-106): empty guard, short
series routed to the trend fallback, scaling, then the XGBoost → Ensemble
→ LSTM → trend fallback chain with every tier's exception caught. -/
def generate_forecast (env : ModelEnv) (prices : List ℝ) (days : ℕ) :
    Except Unit (List ℝ) :=
  match prices with
  | [] => .ok []
  | p :: ps =>
    if (p :: ps).length < 30 then simple_fallback (p :: ps) days
    else
      let scale_factor := calculate_scale_factor (p :: ps)
      let scaled_prices :=
        if 1 < scale_factor then scale_prices (p :: ps) scale_factor else p :: ps
      let post := fun fc =>
        if 1 < scale_factor then descale_prices fc scale_factor else fc
      match xgboost_forecast env.xgbFit scaled_prices days with
      | .ok fc => .ok (post fc)
      | .error _ =>
        match ensemble_forecast env.prophetFit env.arimaFit scaled_prices days with
        | .ok fc => .ok (post fc)
        | .error _ =>
          match lstm_forecast env.lstmFit scaled_prices days with
          | .ok fc => .ok (post fc)
          | .error _ => (simple_fallback scaled_prices days).map post

/-- The length of a normally returned forecast. -/
def forecastLength (e : Except Unit (List ℝ)) : Option ℕ :=
  e.toOption.map List.length

/-- `true` iff the call returned normally (no exception escaped). -/
def returnsNormally (e : Except Unit (List ℝ)) : Bool :=
  match e with
  | .ok _ => true
  | .error _ => false

/-- A positive power of ten (with integer exponent). -/
def isPow10 (x : ℝ) : Prop := ∃ k : ℤ, x = (10 : ℝ) ^ k

/-!
A small heap model for the Python lists handled by `generate_forecast`, to
make mutation and aliasing expressible: the caller's `prices` list lives in
a heap cell, `_scale_prices` allocates a fresh cell (list comprehension),
and `_xgboost_forecast` copies its input (`current_prices = list(prices)`)
into a fresh cell which is the only cell its loop appends to.  The other
forecasters perform no Python-list mutation (they copy into numpy/pandas
structures and build fresh local lists), so they are modelled as pure
functions of the cell contents.
-/

/-- The heap: cell `r` holds the Python list at index `r`. -/
structure PyState where
  heap : List (List ℝ)

/-- Read the list stored in cell `r`. -/
def readRef (s : PyState) (r : ℕ) : List ℝ := s.heap.getD r []

/-- Allocate a fresh cell holding `v`, returning its index. -/
def allocRef (s : PyState) (v : List ℝ) : ℕ × PyState :=
  (s.heap.length, ⟨s.heap ++ [v]⟩)

/-- Overwrite cell `r` with `v`. -/
def writeRef (s : PyState) (r : ℕ) (v : List ℝ) : PyState :=
  ⟨s.heap.set r v⟩

/-- `list.append(x)`: in-place mutation of the list in cell `r`. -/
def appendRef (s : PyState) (r : ℕ) (x : ℝ) : PyState :=
  writeRef s r (readRef s r ++ [x])

/-- Heap-level version of `xgbLoop`: the synthetic points are appended, in
place, to the list in cell `rc`. -/
def xgbLoopH (model : List ℝ → ℝ) : ℕ → ℕ → PyState → List ℝ × PyState
  | 0, _, s => ([], s)
  | days + 1, rc, s =>
    let current_prices := readRef s rc
    if current_prices.length < 22 then
      let rest := xgbLoopH model days rc s
      (current_prices.getLastD 0 :: rest.1, rest.2)
    else
      let s1 := appendRef s rc (model current_prices)
      let rest := xgbLoopH model days rc s1
      (model current_prices :: rest.1, rest.2)

/-- Heap-level `_xgboost_forecast`: `current_prices = list(prices)` copies
the input into a fresh cell before the loop. -/
def xgboost_forecast_heap (fit : List ℝ → Option (List ℝ → ℝ)) (s : PyState)
    (rp : ℕ) (days : ℕ) : Except Unit (List ℝ) × PyState :=
  let prices := readRef s rp
  match fit prices with
  | none => (.error (), s)
  | some model =>
    let a := allocRef s prices
    let res := xgbLoopH model days a.1 a.2
    (anchor prices res.1, res.2)

/-- The orchestrator's four-tier cascade on already-computed tier results:
take the first success (descaled by `post`), the last tier's failure
propagating.  In the pure embedding the tiers have no effects, so
computing them before the cascade is equivalent to the nested
try/except of the source. -/
def tierChain (x y z w : Except Unit (List ℝ)) (post : List ℝ → List ℝ) :
    Except Unit (List ℝ) :=
  match x with
  | .ok fc => .ok (post fc)
  | .error _ =>
    match y with
    | .ok fc => .ok (post fc)
    | .error _ =>
      match z with
      | .ok fc => .ok (post fc)
      | .error _ => w.map post

/-- Heap-level `generate_forecast`: the caller's series lives in cell `rp`;
when scaling applies, the scaled series is a fresh cell, otherwise the
tiers receive the caller's cell itself (aliasing).  Only
`_xgboost_forecast` touches the heap (its private copy); the remaining
tiers are pure functions of the cell contents after the XGBoost attempt. -/
def generate_forecast_heap (env : ModelEnv) (s : PyState) (rp : ℕ)
    (days : ℕ) : Except Unit (List ℝ) × PyState :=
  match readRef s rp with
  | [] => (.ok [], s)
  | p :: ps =>
    if (p :: ps).length < 30 then (simple_fallback (p :: ps) days, s)
    else
      let scale_factor := calculate_scale_factor (p :: ps)
      let al :=
        if 1 < scale_factor then allocRef s (scale_prices (p :: ps) scale_factor)
        else (rp, s)
      let xr := xgboost_forecast_heap env.xgbFit al.2 al.1 days
      (tierChain xr.1
        (ensemble_forecast env.prophetFit env.arimaFit (readRef xr.2 al.1) days)
        (lstm_forecast env.lstmFit (readRef xr.2 al.1) days)
        (simple_fallback (readRef xr.2 al.1) days)
        (fun fc => if 1 < scale_factor then descale_prices fc scale_factor else fc),
        xr.2)

/-- A model environment in which every external library fails to fit:
every tier but the trend fallback fails. -/
def env0 : ModelEnv :=
  ⟨fun _ => none, fun _ => none, fun _ => none, fun _ => none⟩

/-- The 10-point series of the spec's end-to-end scenario. -/
def specList10 : List ℝ :=
  [100.0, 102.0, 104.0, 103.0, 105.0, 107.0, 110.0, 112.0, 115.0, 118.0]

end

/-! ### Helper lemmas -/

theorem anchor_ok_length {prices preds out : List ℝ}
    (h : anchor prices preds = .ok out) : out.length = preds.length := by
  cases prices with
  | nil => simp [anchor] at h
  | cons p ps =>
    cases preds with
    | nil => simp [anchor] at h
    | cons q qs =>
      simp only [anchor, Except.ok.injEq] at h
      rw [← h]
      simp

theorem anchor_ok_head {p q : ℝ} {ps qs out : List ℝ}
    (h : anchor (p :: ps) (q :: qs) = .ok out) :
    out.head? = some ((p :: ps).getLastD 0) := by
  simp only [anchor, Except.ok.injEq] at h
  rw [← h]
  simp

theorem xgbLoop_length (model : List ℝ → ℝ) (days : ℕ) :
    ∀ cur, (xgbLoop model days cur).length = days := by
  induction days with
  | zero => intro cur; rfl
  | succ d ih =>
    intro cur
    unfold xgbLoop
    split <;> simp [ih]

theorem lstmLoop_length (step : List ℝ → ℝ) (days : ℕ) :
    ∀ seq, (lstmLoop step days seq).length = days := by
  induction days with
  | zero => intro seq; rfl
  | succ d ih => intro seq; simp [lstmLoop, ih]

theorem fallbackLoop_length (cp slope : ℝ) (days : ℕ) :
    ∀ i last, (fallbackLoop cp slope days i last).length = days := by
  induction days with
  | zero => intro i last; rfl
  | succ d ih => intro i last; simp [fallbackLoop, ih]

theorem simple_fallback_eq (p : ℝ) (ps : List ℝ) (days : ℕ) :
    simple_fallback (p :: ps) days =
      .ok (if (p :: ps).length < 2 then List.replicate days ((p :: ps).getLastD 0)
        else fallbackLoop ((p :: ps).getLastD 0) (fallbackSlope (p :: ps)) days 0
          ((p :: ps).getLastD 0)) := by
  simp only [simple_fallback]
  split <;> rfl

theorem simple_fallback_cons (p : ℝ) (ps : List ℝ) (days : ℕ) :
    ∃ out, simple_fallback (p :: ps) days = .ok out ∧ out.length = days :=
  ⟨_, simple_fallback_eq p ps days, by split <;> simp [fallbackLoop_length]⟩

theorem xgboost_forecast_length {fit : List ℝ → Option (List ℝ → ℝ)}
    {prices out : List ℝ} {days : ℕ}
    (h : xgboost_forecast fit prices days = .ok out) : out.length = days := by
  unfold xgboost_forecast at h
  cases hf : fit prices with
  | none => rw [hf] at h; cases h
  | some model =>
    rw [hf] at h
    rw [anchor_ok_length h, xgbLoop_length]

theorem prophet_forecast_length {fit : List ℝ → Option (ℕ → ℝ)}
    {prices out : List ℝ} {days : ℕ}
    (h : prophet_forecast fit prices days = .ok out) : out.length = days := by
  unfold prophet_forecast at h
  cases hf : fit prices with
  | none => rw [hf] at h; cases h
  | some yhat =>
    rw [hf] at h
    rw [anchor_ok_length h]
    simp

theorem ensemble_forecast_length {pf af : List ℝ → Option (ℕ → ℝ)}
    {prices out : List ℝ} {days : ℕ}
    (h : ensemble_forecast pf af prices days = .ok out) : out.length = days := by
  unfold ensemble_forecast at h
  cases hm : ensembleMembers pf af prices days with
  | nil =>
    rw [hm] at h
    cases prices with
    | nil => cases h
    | cons p ps =>
      simp only [Except.ok.injEq] at h
      rw [← h]
      simp
  | cons m ms =>
    rw [hm] at h
    rw [anchor_ok_length h]
    simp

theorem lstm_forecast_length {fit : List ℝ → Option (List ℝ → ℝ)}
    {prices out : List ℝ} {days : ℕ}
    (h : lstm_forecast fit prices days = .ok out) : out.length = days := by
  unfold lstm_forecast at h
  split at h
  · cases h
  · cases hf : fit prices with
    | none => rw [hf] at h; cases h
    | some step =>
      rw [hf] at h
      rw [anchor_ok_length h]
      simp [lstmLoop_length]

theorem post_length {f : ℝ} {fc : List ℝ} :
    (if 1 < f then descale_prices fc f else fc).length = fc.length := by
  split <;> simp [descale_prices]

theorem generate_forecast_ok (env : ModelEnv) (p : ℝ) (ps : List ℝ)
    (days : ℕ) :
    ∃ r, generate_forecast env (p :: ps) days = .ok r ∧ r.length = days := by
  by_cases h30 : (p :: ps).length < 30
  · obtain ⟨out, h, hl⟩ := simple_fallback_cons p ps days
    refine ⟨out, ?_, hl⟩
    simp only [generate_forecast]
    rw [if_pos h30, h]
  · simp only [generate_forecast]
    rw [if_neg h30]
    set f := calculate_scale_factor (p :: ps) with hf
    obtain ⟨q, qs, hq⟩ :
        ∃ q qs, (if 1 < f then scale_prices (p :: ps) f else p :: ps) = q :: qs := by
      split
      · exact ⟨_, _, rfl⟩
      · exact ⟨p, ps, rfl⟩
    rw [hq]
    cases hx : xgboost_forecast env.xgbFit (q :: qs) days with
    | ok fc =>
      refine ⟨_, rfl, ?_⟩
      rw [post_length, xgboost_forecast_length hx]
    | error e =>
      cases he : ensemble_forecast env.prophetFit env.arimaFit (q :: qs) days with
      | ok fc =>
        refine ⟨_, rfl, ?_⟩
        rw [post_length, ensemble_forecast_length he]
      | error e2 =>
        cases hls : lstm_forecast env.lstmFit (q :: qs) days with
        | ok fc =>
          refine ⟨_, rfl, ?_⟩
          rw [post_length, lstm_forecast_length hls]
        | error e3 =>
          obtain ⟨out, ho, hlen⟩ := simple_fallback_cons q qs days
          rw [ho]
          exact ⟨_, rfl, by rw [post_length, hlen]⟩

/-! ### C1: length invariant and empty-input invariant -/

/-- C1: in every model environment, for every `days >= 1`,
`generate_forecast` on the empty list returns `[]`; on every non-empty
price list it returns normally with a forecast of exactly `days` values;
and its result is the empty list exactly when the input is empty. -/
theorem generate_forecast_length (env : ModelEnv) (prices : List ℝ)
    (days : ℕ) (hd : 1 ≤ days) :
    (prices = [] → generate_forecast env prices days = .ok []) ∧
      (prices ≠ [] →
        forecastLength (generate_forecast env prices days) = some days) ∧
      (generate_forecast env prices days = .ok [] ↔ prices = []) := by
  cases prices with
  | nil => exact ⟨fun _ => rfl, fun h => absurd rfl h, by simp [generate_forecast]⟩
  | cons p ps =>
    obtain ⟨r, hr, hl⟩ := generate_forecast_ok env p ps days
    refine ⟨?_, ?_, ?_, ?_⟩
    · intro h
      exact absurd h (by simp)
    · intro _
      rw [hr]
      simp [forecastLength, Except.toOption, hl]
    · intro h
      rw [hr] at h
      simp only [Except.ok.injEq] at h
      rw [h] at hl
      simp at hl
      omega
    · intro h
      exact absurd h (by simp)

/-- C1 witness: a one-element series with `days = 5` in the environment
where every model library is unavailable. -/
theorem generate_forecast_length_witness :
    forecastLength (generate_forecast env0 [(100 : ℝ)] 5) = some 5 :=
  (generate_forecast_length env0 [100] 5 (by norm_num)).2.1 (by simp)

/-! ### C2: no exception escapes the orchestrator -/

/-- C2: for every non-empty price list, every `days >= 1` and EVERY model
environment — i.e. every combination of failures of the XGBoost, ensemble
and LSTM tiers, each failure being caught and the next tier tried —
`generate_forecast` returns normally. -/
theorem generate_forecast_no_escape (env : ModelEnv) (prices : List ℝ)
    (days : ℕ) (hp : prices ≠ []) (_hd : 1 ≤ days) :
    returnsNormally (generate_forecast env prices days) = true := by
  obtain ⟨p, ps, rfl⟩ := List.exists_cons_of_ne_nil hp
  obtain ⟨r, hr, _⟩ := generate_forecast_ok env p ps days
  rw [hr]
  rfl

/-- C2 witness: a one-element series with `days = 7` in the environment
where every model tier fails. -/
theorem generate_forecast_no_escape_witness :
    returnsNormally (generate_forecast env0 [(100 : ℝ)] 7) = true :=
  generate_forecast_no_escape env0 [100] 7 (by simp) (by norm_num)

/-! ### C7: scale/descale round trip -/

/-- C7: for every price list `x` and every scale factor `f > 0`,
`descale_prices (scale_prices x f) f = x` — element-wise multiplication by
`f` followed by element-wise division by `f` is the identity over exact
arithmetic. -/
theorem descale_scale_roundtrip (x : List ℝ) (f : ℝ) (hf : 0 < f) :
    descale_prices (scale_prices x f) f = x := by
  induction x with
  | nil => rfl
  | cons p ps ih =>
    simp only [scale_prices, descale_prices, List.map_cons] at ih ⊢
    rw [mul_div_cancel_right₀ p hf.ne', ih]

/-- C7 witness: the round trip at `x = [1, 2, 3]`, `f = 2`. -/
theorem descale_scale_roundtrip_witness :
    descale_prices (scale_prices [1, 2, 3] 2) 2 = [1, 2, 3] :=
  descale_scale_roundtrip [1, 2, 3] 2 (by norm_num)

/-! ### C8: the trend fallback on short input -/

/-- C8 counterexample: on the empty list (which has fewer than 2 elements)
`_simple_fallback` does not return anything — `prices[-1]` raises
IndexError — so the fallback does not "never fail" on every list with
fewer than 2 elements. -/
theorem simple_fallback_empty_raises : simple_fallback [] 5 = .error () := rfl

/-- C8 (amended): on every NON-EMPTY price list the trend fallback returns
normally, and on every one-element list (the non-empty lists with fewer
than 2 elements) it returns the last price repeated `days` times; in
particular `simple_fallback [100] 5 = [100, 100, 100, 100, 100]`. -/
theorem simple_fallback_short_input (prices : List ℝ) (days : ℕ)
    (hp : prices ≠ []) :
    (∃ out, simple_fallback prices days = .ok out) ∧
      ∀ p, prices = [p] →
        simple_fallback prices days = .ok (List.replicate days p) := by
  obtain ⟨p, ps, rfl⟩ := List.exists_cons_of_ne_nil hp
  constructor
  · obtain ⟨out, h, _⟩ := simple_fallback_cons p ps days
    exact ⟨out, h⟩
  · intro x hx
    rw [hx]
    simp [simple_fallback]

/-- C8 witness: the amended claim evaluated at `prices = [100]`, `days = 5`. -/
theorem simple_fallback_short_input_witness :
    simple_fallback [(100 : ℝ)] 5 = .ok (List.replicate 5 (100 : ℝ)) :=
  (simple_fallback_short_input [100] 5 (by simp)).2 100 rfl

/-! ### C9: the trend fallback clamps to ±20% of the last price -/

theorem fallbackLoop_mem {cp slope : ℝ} (hcp : 0 ≤ cp) :
    ∀ (d i : ℕ) (last v : ℝ), v ∈ fallbackLoop cp slope d i last →
      0.8 * cp ≤ v ∧ v ≤ 1.2 * cp := by
  intro d
  induction d with
  | zero =>
    intro i last v hv
    simp [fallbackLoop] at hv
  | succ d ih =>
    intro i last v hv
    simp only [fallbackLoop, List.mem_cons] at hv
    rcases hv with rfl | hv
    · constructor
      · have h1 : cp * 0.8 ≤ max (last + slope * (1 - 0.05 * i)) (cp * 0.8) :=
          le_max_right _ _
        have h2 : cp * 0.8 ≤ cp * 1.2 := by nlinarith
        have h3 := le_min h1 h2
        linarith
      · have h4 := min_le_right
          (max (last + slope * (1 - 0.05 * i)) (cp * 0.8)) (cp * 1.2)
        linarith
    · exact ih _ _ _ hv

/-- C9: for every non-empty price list with a non-negative last price (the
data model's prices are positive) and every `days >= 1`, every value
returned by the trend fallback lies in
`[0.8 * prices[-1], 1.2 * prices[-1]]`. -/
theorem simple_fallback_clamped (prices : List ℝ) (days : ℕ) (out : List ℝ)
    (hp : prices ≠ []) (_hd : 1 ≤ days) (hlast : 0 ≤ prices.getLastD 0)
    (h : simple_fallback prices days = .ok out) :
    ∀ v ∈ out, 0.8 * prices.getLastD 0 ≤ v ∧ v ≤ 1.2 * prices.getLastD 0 := by
  obtain ⟨p, ps, rfl⟩ := List.exists_cons_of_ne_nil hp
  rw [simple_fallback_eq] at h
  simp only [Except.ok.injEq] at h
  subst h
  intro v hv
  split at hv
  · rw [List.eq_of_mem_replicate hv]
    constructor <;> nlinarith
  · exact fallbackLoop_mem hlast _ _ _ _ hv

/-- C9 witness: the one-element series `[100]` with `days = 1`. -/
theorem simple_fallback_clamped_witness :
    simple_fallback [(100 : ℝ)] 1 = .ok [100] ∧
      (0.8 * (([(100 : ℝ)]).getLastD 0) ≤ 100 ∧
        (100 : ℝ) ≤ 1.2 * (([(100 : ℝ)]).getLastD 0)) := by
  have hok : simple_fallback [(100 : ℝ)] 1 = .ok [100] := by
    simp [simple_fallback]
  exact ⟨hok,
    simple_fallback_clamped [100] 1 [100] (by simp) (le_refl 1)
      (by norm_num) hok 100 (by simp)⟩

/-! ### C3: which forecasters anchor their first value -/

theorem npLinspace_two (a b : ℝ) : npLinspace a b 2 = [a, b] := by
  show npLinspace a b (0 + 2) = [a, b]
  simp only [npLinspace]
  rw [show List.range (0 + 2) = [0, 1] from rfl]
  simp only [List.map_cons, List.map_nil, List.cons.injEq, and_true]
  constructor <;> (push_cast; ring)

theorem fallbackLoop_zero (cp slope : ℝ) (i : ℕ) (last : ℝ) :
    fallbackLoop cp slope 0 i last = [] := rfl

theorem fallbackLoop_one (cp slope : ℝ) (i : ℕ) (last : ℝ) :
    fallbackLoop cp slope 1 i last =
      [min (max (last + slope * (1 - 0.05 * i)) (cp * 0.8)) (cp * 1.2)] := rfl

theorem anchor_ok_head_of_range {p : ℝ} {ps out : List ℝ} {F : ℕ → ℝ} {d : ℕ}
    (h : anchor (p :: ps) ((List.range (d + 1)).map F) = .ok out) :
    out.head? = some ((p :: ps).getLastD 0) := by
  rw [List.range_succ_eq_map, List.map_cons] at h
  exact anchor_ok_head h

/-- C3 counterexample: the trend fallback `_simple_fallback` does NOT
anchor its output: on `[100, 110]` with `days = 1` it returns `[116]`
(slope 10 dampened to 6, added to the last price 110), whose first element
is not the last input price 110. -/
theorem simple_fallback_not_anchored :
    simple_fallback [(100 : ℝ), 110] 1 = .ok [116] ∧ (116 : ℝ) ≠ 110 := by
  refine ⟨?_, by norm_num⟩
  have key : ∀ A B : ℝ, B ≠ 0 → A = 10 * B → A / B = 10 := by
    intro A B hB hA
    rw [hA, mul_div_assoc, div_self hB, mul_one]
  have hw : wlsSlope [0, 1] [100, 110] [1, Real.exp 1] = 10 := by
    simp only [wlsSlope, List.map_cons, List.map_nil, List.zipWith_cons_cons,
      List.zipWith_nil_right, List.sum_cons, List.sum_nil]
    apply key
    · exact ne_of_gt (by nlinarith [pow_pos (Real.exp_pos 1) 2])
    · ring
  have hs : fallbackSlope [(100 : ℝ), 110] = 6 := by
    have ht : takeLast (min 14 ([(100 : ℝ), 110]).length) [(100 : ℝ), 110] =
        [(100 : ℝ), 110] := rfl
    unfold fallbackSlope
    rw [ht]
    rw [show ([(100 : ℝ), 110]).length = 2 from rfl]
    rw [npLinspace_two]
    rw [show List.range 2 = [0, 1] from rfl]
    simp only [List.map_cons, List.map_nil, Real.exp_zero, Nat.cast_zero,
      Nat.cast_one]
    rw [hw]
    norm_num
  have hval :
      min (max ((110 : ℝ) + 6 * (1 - 0.05 * ((0 : ℕ) : ℝ))) ((110 : ℝ) * 0.8))
        ((110 : ℝ) * 1.2) = 116 := by
    have h1 : (110 : ℝ) + 6 * (1 - 0.05 * ((0 : ℕ) : ℝ)) = 116 := by
      push_cast
      ring
    rw [h1, max_eq_left (by norm_num : (110 : ℝ) * 0.8 ≤ 116),
      min_eq_left (by norm_num : (116 : ℝ) ≤ 110 * 1.2)]
  rw [simple_fallback_eq,
    if_neg (by norm_num : ¬ ([(100 : ℝ), 110]).length < 2),
    show ([(100 : ℝ), 110]).getLastD 0 = 110 from rfl, hs, fallbackLoop_one,
    hval]

/-- C3 (amended): every primitive forecaster EXCEPT the trend fallback —
XGBoost, Prophet, the ensemble combiner, LSTM — applies anchoring as its
final step: whenever it succeeds on a non-empty series with `days >= 1`,
the first element of its forecast equals the last price of its input
series (before any descaling); the trend fallback instead starts from the
last price plus a dampened, clamped trend step. -/
theorem model_forecasters_anchor (prices : List ℝ) (days : ℕ)
    (hp : prices ≠ []) (hd : 1 ≤ days) :
    (∀ fit out, xgboost_forecast fit prices days = .ok out →
        out.head? = some (prices.getLastD 0)) ∧
      (∀ fit out, prophet_forecast fit prices days = .ok out →
        out.head? = some (prices.getLastD 0)) ∧
      (∀ pf af out, ensemble_forecast pf af prices days = .ok out →
        out.head? = some (prices.getLastD 0)) ∧
      (∀ fit out, lstm_forecast fit prices days = .ok out →
        out.head? = some (prices.getLastD 0)) := by
  obtain ⟨p, ps, rfl⟩ := List.exists_cons_of_ne_nil hp
  obtain ⟨d, rfl⟩ : ∃ d, days = d + 1 := ⟨days - 1, by omega⟩
  refine ⟨?_, ?_, ?_, ?_⟩
  · intro fit out h
    unfold xgboost_forecast at h
    cases hf : fit (p :: ps) with
    | none => rw [hf] at h; cases h
    | some model =>
      rw [hf] at h
      have h2 : anchor (p :: ps) (xgbLoop model (d + 1) (p :: ps)) = .ok out := h
      obtain ⟨c, cs, hc⟩ : ∃ c cs, xgbLoop model (d + 1) (p :: ps) = c :: cs := by
        unfold xgbLoop
        split
        · exact ⟨_, _, rfl⟩
        · exact ⟨_, _, rfl⟩
      rw [hc] at h2
      exact anchor_ok_head h2
  · intro fit out h
    unfold prophet_forecast at h
    cases hf : fit (p :: ps) with
    | none => rw [hf] at h; cases h
    | some yhat =>
      rw [hf] at h
      exact anchor_ok_head_of_range h
  · intro pf af out h
    unfold ensemble_forecast at h
    cases hm : ensembleMembers pf af (p :: ps) (d + 1) with
    | nil =>
      rw [hm] at h
      have h2 : (Except.ok (List.replicate (d + 1) ((p :: ps).getLastD 0)) :
          Except Unit (List ℝ)) = .ok out := h
      simp only [Except.ok.injEq] at h2
      rw [← h2]
      simp [List.replicate_succ]
    | cons m ms =>
      rw [hm] at h
      exact anchor_ok_head_of_range h
  · intro fit out h
    unfold lstm_forecast at h
    split at h
    · cases h
    · cases hf : fit (p :: ps) with
      | none => rw [hf] at h; cases h
      | some step =>
        rw [hf] at h
        exact anchor_ok_head h

/-- C3 witness: Prophet (via a fitting oracle returning the constant
predictor 7) on `[100, 110]` with `days = 1` returns `[110]`, anchored to
the last input price. -/
theorem model_forecasters_anchor_witness :
    prophet_forecast (fun _ => some fun _ => (7 : ℝ)) [(100 : ℝ), 110] 1 =
        .ok [110] ∧
      ([(110 : ℝ)]).head? = some (([(100 : ℝ), 110]).getLastD 0) := by
  have hok : prophet_forecast (fun _ => some fun _ => (7 : ℝ)) [(100 : ℝ), 110] 1 =
      .ok [110] := by
    norm_num [prophet_forecast, anchor, List.range_succ]
  exact ⟨hok,
    (model_forecasters_anchor [100, 110] 1 (by simp) (le_refl 1)).2.1 _ _ hok⟩


/-! ### C4: short series route directly to the trend fallback -/

/-- C4: for every non-empty price list with fewer than 30 elements and any
`days`, `generate_forecast` equals the trend fallback computed directly on
the unmodified input, whatever the model environment — none of the richer
models is consulted. -/
theorem generate_forecast_short_series (env : ModelEnv) (prices : List ℝ)
    (days : ℕ) (hp : prices ≠ []) (h30 : prices.length < 30) :
    generate_forecast env prices days = simple_fallback prices days := by
  obtain ⟨p, ps, rfl⟩ := List.exists_cons_of_ne_nil hp
  simp only [generate_forecast]
  rw [if_pos h30]

/-- C4 witness: the spec's 10-point series with `days = 3`, in the
environment where every model library is unavailable. -/
theorem generate_forecast_short_series_witness :
    generate_forecast env0 specList10 3 = simple_fallback specList10 3 :=
  generate_forecast_short_series env0 specList10 3 (by simp [specList10])
    (by norm_num [specList10])

/-! ### C5 and C6: the scale factor -/

theorem pyRound_eq (x : ℝ) (n : ℤ) (h1 : (n : ℝ) - 1 / 2 < x)
    (h2 : x < n + 1 / 2) : pyRound x = n := by
  unfold pyRound
  rw [if_neg ?hfr]
  case hfr =>
    intro hfr
    rw [Int.fract] at hfr
    have hlt : ((⌊x⌋ : ℤ) : ℝ) < n := by linarith
    have hgt : ((n : ℤ) : ℝ) - 1 < ((⌊x⌋ : ℤ) : ℝ) := by linarith
    have hlt2 : ⌊x⌋ < n := by exact_mod_cast hlt
    have hgt2 : (n : ℝ) - 1 < (⌊x⌋ : ℝ) := hgt
    have hgt3 : n - 1 < ⌊x⌋ := by exact_mod_cast hgt2
    omega
  rw [round_eq, Int.floor_eq_iff]
  constructor
  · linarith
  · linarith

theorem pyRound_abs_le (x : ℝ) : |(pyRound x : ℝ) - x| ≤ 1 / 2 := by
  unfold pyRound
  split
  case isTrue hfr =>
    rw [Int.fract] at hfr
    split
    · rw [abs_le]
      constructor <;> linarith
    · rw [abs_le]
      push_cast
      constructor <;> linarith
  case isFalse hfr =>
    rw [abs_sub_comm]
    exact abs_sub_round x

theorem pyRound_logb_eval (x : ℝ) (n : ℤ) (hx : 0 < x)
    (hlo : (10 : ℝ) ^ (2 * n - 1) < x ^ 2)
    (hhi : x ^ 2 < (10 : ℝ) ^ (2 * n + 1)) :
    pyRound (Real.logb 10 x) = n := by
  have hb : (1 : ℝ) < 10 := by norm_num
  have hx2 : (0 : ℝ) < x ^ 2 := by positivity
  have hL2 : Real.logb 10 (x ^ 2) = 2 * Real.logb 10 x := by
    rw [show x ^ 2 = x ^ (2 : ℕ) from rfl, Real.logb_pow]
    norm_num
  have h1 : Real.logb 10 (x ^ 2) < 2 * (n : ℝ) + 1 := by
    rw [Real.logb_lt_iff_lt_rpow hb hx2,
      show (2 * (n : ℝ) + 1) = ((2 * n + 1 : ℤ) : ℝ) by push_cast; ring,
      Real.rpow_intCast]
    exact hhi
  have h2 : 2 * (n : ℝ) - 1 < Real.logb 10 (x ^ 2) := by
    rw [Real.lt_logb_iff_rpow_lt hb hx2,
      show (2 * (n : ℝ) - 1) = ((2 * n - 1 : ℤ) : ℝ) by push_cast; ring,
      Real.rpow_intCast]
    exact hlo
  rw [hL2] at h1 h2
  apply pyRound_eq
  · linarith
  · linarith

theorem calculate_scale_factor_eval (p : ℝ) (ps : List ℝ)
    (h0 : 0 < listMean (p :: ps)) (h1 : listMean (p :: ps) < 0.01) :
    calculate_scale_factor (p :: ps) =
      (10 : ℝ) ^ pyRound (Real.logb 10 (10.0 / listMean (p :: ps))) := by
  simp only [calculate_scale_factor]
  rw [if_neg (by linarith), if_pos h0]

theorem sum_map_mul (l : List ℝ) (f : ℝ) :
    (l.map fun p => p * f).sum = l.sum * f := by
  induction l with
  | nil => simp
  | cons a t ih =>
    simp [ih]
    ring

theorem listMean_scale (l : List ℝ) (f : ℝ) :
    listMean (scale_prices l f) = listMean l * f := by
  unfold listMean scale_prices
  rw [List.length_map, sum_map_mul]
  ring

theorem listMean_replicate (n : ℕ) (hn : 1 ≤ n) (v : ℝ) :
    listMean (List.replicate n v) = v := by
  unfold listMean
  rw [List.sum_replicate, List.length_replicate, nsmul_eq_mul]
  have hne : (n : ℝ) ≠ 0 := Nat.cast_ne_zero.mpr (by omega)
  field_simp

theorem pyRound_logb_bounds (μ : ℝ) (h0 : 0 < μ) (h1 : μ < 0.01) :
    (3 : ℤ) ≤ pyRound (Real.logb 10 (10.0 / μ)) ∧
      1 ≤ μ * (10 : ℝ) ^ pyRound (Real.logb 10 (10.0 / μ)) ∧
      μ * (10 : ℝ) ^ pyRound (Real.logb 10 (10.0 / μ)) < 100 := by
  have hb : (1 : ℝ) < 10 := by norm_num
  have hx : (0 : ℝ) < 10.0 / μ := by positivity
  have h1000 : (1000 : ℝ) < 10.0 / μ := by
    rw [lt_div_iff₀ h0]
    linarith
  have hlog1000 : Real.logb 10 1000 = 3 := by
    rw [show (1000 : ℝ) = 10 ^ (3 : ℕ) by norm_num, Real.logb_pow,
      Real.logb_self_eq_one (by norm_num : (1:ℝ) < 10)]
    norm_num
  have hL3 : (3 : ℝ) < Real.logb 10 (10.0 / μ) := by
    rw [← hlog1000]
    exact Real.logb_lt_logb hb (by norm_num) h1000
  obtain ⟨hlo, hhi⟩ := abs_le.mp (pyRound_abs_le (Real.logb 10 (10.0 / μ)))
  refine ⟨?_, ?_, ?_⟩
  · have h2 : (2 : ℝ) < (pyRound (Real.logb 10 (10.0 / μ)) : ℝ) := by linarith
    have h2i : (2 : ℤ) < pyRound (Real.logb 10 (10.0 / μ)) := by exact_mod_cast h2
    omega
  · rw [show ((10 : ℝ) ^ pyRound (Real.logb 10 (10.0 / μ))) =
        (10 : ℝ) ^ ((pyRound (Real.logb 10 (10.0 / μ)) : ℤ) : ℝ) from
        (Real.rpow_intCast 10 _).symm]
    have hkey : μ * (10 : ℝ) ^ ((pyRound (Real.logb 10 (10.0 / μ)) : ℤ) : ℝ) =
        10.0 * (10 : ℝ) ^ (((pyRound (Real.logb 10 (10.0 / μ)) : ℤ) : ℝ) -
          Real.logb 10 (10.0 / μ)) := by
      rw [Real.rpow_sub (by norm_num),
        Real.rpow_logb (by norm_num) (by norm_num) hx]
      field_simp
      ring
    rw [hkey]
    have hmono : (10 : ℝ) ^ (-(1 / 2) : ℝ) ≤
        (10 : ℝ) ^ (((pyRound (Real.logb 10 (10.0 / μ)) : ℤ) : ℝ) -
          Real.logb 10 (10.0 / μ)) :=
      Real.rpow_le_rpow_of_exponent_le (by norm_num) (by linarith)
    have hhalf : (1 : ℝ) ≤ 10.0 * (10 : ℝ) ^ (-(1 / 2) : ℝ) := by
      have hmul : (10.0 : ℝ) * (10 : ℝ) ^ (-(1 / 2) : ℝ) =
          (10 : ℝ) ^ ((1 : ℝ) + -(1 / 2)) := by
        rw [Real.rpow_add (by norm_num), Real.rpow_one]
        norm_num
      rw [hmul]
      calc (1 : ℝ) = (10 : ℝ) ^ (0 : ℝ) := (Real.rpow_zero 10).symm
        _ ≤ (10 : ℝ) ^ ((1 : ℝ) + -(1 / 2)) :=
          Real.rpow_le_rpow_of_exponent_le (by norm_num) (by norm_num)
    nlinarith
  · rw [show ((10 : ℝ) ^ pyRound (Real.logb 10 (10.0 / μ))) =
        (10 : ℝ) ^ ((pyRound (Real.logb 10 (10.0 / μ)) : ℤ) : ℝ) from
        (Real.rpow_intCast 10 _).symm]
    have hkey : μ * (10 : ℝ) ^ ((pyRound (Real.logb 10 (10.0 / μ)) : ℤ) : ℝ) =
        10.0 * (10 : ℝ) ^ (((pyRound (Real.logb 10 (10.0 / μ)) : ℤ) : ℝ) -
          Real.logb 10 (10.0 / μ)) := by
      rw [Real.rpow_sub (by norm_num),
        Real.rpow_logb (by norm_num) (by norm_num) hx]
      field_simp
      ring
    rw [hkey]
    have hmono : (10 : ℝ) ^ (((pyRound (Real.logb 10 (10.0 / μ)) : ℤ) : ℝ) -
        Real.logb 10 (10.0 / μ)) ≤ (10 : ℝ) ^ ((1 / 2) : ℝ) :=
      Real.rpow_le_rpow_of_exponent_le (by norm_num) (by linarith)
    have hupper : 10.0 * (10 : ℝ) ^ ((1 / 2) : ℝ) < 100 := by
      have hmul : (10.0 : ℝ) * (10 : ℝ) ^ ((1 / 2) : ℝ) =
          (10 : ℝ) ^ ((1 : ℝ) + 1 / 2) := by
        rw [Real.rpow_add (by norm_num), Real.rpow_one]
        norm_num
      rw [hmul]
      have hlt : (10 : ℝ) ^ ((1 : ℝ) + 1 / 2) < (10 : ℝ) ^ (2 : ℝ) :=
        Real.rpow_lt_rpow_of_exponent_lt (by norm_num) (by norm_num)
      have h100 : (10 : ℝ) ^ (2 : ℝ) = 100 := by
        rw [show (2 : ℝ) = ((2 : ℕ) : ℝ) by norm_num, Real.rpow_natCast]
        norm_num
      linarith
    nlinarith

theorem csf_replicate_18em6 (n : ℕ) (hn : 1 ≤ n) :
    calculate_scale_factor (List.replicate n (0.000018 : ℝ)) = (10 : ℝ) ^ (6 : ℤ) := by
  obtain ⟨m, rfl⟩ : ∃ m, n = m + 1 := ⟨n - 1, by omega⟩
  have hm : listMean (List.replicate (m + 1) (0.000018 : ℝ)) = 0.000018 :=
    listMean_replicate _ (by omega) _
  rw [List.replicate_succ] at hm ⊢
  rw [calculate_scale_factor_eval _ _ (by rw [hm]; norm_num) (by rw [hm]; norm_num)]
  rw [hm]
  rw [pyRound_logb_eval (10.0 / 0.000018) 6 (by norm_num) ?_ ?_]
  · rw [show (2 * (6 : ℤ) - 1) = ((11 : ℕ) : ℤ) from rfl, zpow_natCast]
    norm_num
  · rw [show (2 * (6 : ℤ) + 1) = ((13 : ℕ) : ℤ) from rfl, zpow_natCast]
    norm_num

/-- C5 counterexample: the series `[0.009]` has positive mean `0.009 < 0.01`,
yet `_calculate_scale_factor` returns `1000`, which is smaller than the
claimed lower bound `100000`. -/
theorem scale_factor_not_always_1e5 :
    0 < listMean [(0.009 : ℝ)] ∧ listMean [(0.009 : ℝ)] < 0.01 ∧
      calculate_scale_factor [(0.009 : ℝ)] = 1000 ∧ (1000 : ℝ) < 100000 := by
  have hm : listMean [(0.009 : ℝ)] = 0.009 := by
    norm_num [listMean]
  refine ⟨by rw [hm]; norm_num, by rw [hm]; norm_num, ?_, by norm_num⟩
  rw [calculate_scale_factor_eval _ _ (by rw [hm]; norm_num) (by rw [hm]; norm_num)]
  rw [hm]
  rw [pyRound_logb_eval (10.0 / 0.009) 3 (by norm_num) ?_ ?_]
  · norm_num
  · rw [show (2 * (3 : ℤ) - 1) = ((5 : ℕ) : ℤ) from rfl, zpow_natCast]
    norm_num
  · rw [show (2 * (3 : ℤ) + 1) = ((7 : ℕ) : ℤ) from rfl, zpow_natCast]
    norm_num

/-- C5 (amended): for every non-empty price series with positive mean
strictly below 0.01, `_calculate_scale_factor` returns a power of 10 that
is at least 1000 (not 100000), and multiplying the series by that factor
puts its mean in `[1, 100)`; for a series of all values 0.000018 the
factor is `10^6 >= 100000`. -/
theorem scale_factor_low_value (prices : List ℝ) (n : ℕ) (hp : prices ≠ [])
    (h0 : 0 < listMean prices) (h1 : listMean prices < 0.01) (hn : 1 ≤ n) :
    (1000 : ℝ) ≤ calculate_scale_factor prices ∧
      isPow10 (calculate_scale_factor prices) ∧
      1 ≤ listMean (scale_prices prices (calculate_scale_factor prices)) ∧
      listMean (scale_prices prices (calculate_scale_factor prices)) < 100 ∧
      (100000 : ℝ) ≤ calculate_scale_factor (List.replicate n (0.000018 : ℝ)) := by
  obtain ⟨p, ps, rfl⟩ := List.exists_cons_of_ne_nil hp
  have heval := calculate_scale_factor_eval p ps h0 h1
  obtain ⟨hr3, hsc1, hsc2⟩ := pyRound_logb_bounds (listMean (p :: ps)) h0 h1
  refine ⟨?_, ?_, ?_, ?_, ?_⟩
  · rw [heval]
    calc (1000 : ℝ) = (10 : ℝ) ^ (3 : ℤ) := by norm_num
      _ ≤ (10 : ℝ) ^ pyRound (Real.logb 10 (10.0 / listMean (p :: ps))) :=
        zpow_le_zpow_right₀ (by norm_num) hr3
  · exact ⟨_, heval⟩
  · rw [listMean_scale, heval]
    linarith
  · rw [listMean_scale, heval]
    linarith
  · rw [csf_replicate_18em6 n hn]
    norm_num

/-- C5 witness: the amended claim evaluated at the singleton series
`[0.000018]`. -/
theorem scale_factor_low_value_witness :
    (1000 : ℝ) ≤ calculate_scale_factor [(0.000018 : ℝ)] ∧
      isPow10 (calculate_scale_factor [(0.000018 : ℝ)]) ∧
      1 ≤ listMean (scale_prices [(0.000018 : ℝ)]
        (calculate_scale_factor [(0.000018 : ℝ)])) ∧
      listMean (scale_prices [(0.000018 : ℝ)]
        (calculate_scale_factor [(0.000018 : ℝ)])) < 100 ∧
      (100000 : ℝ) ≤ calculate_scale_factor (List.replicate 1 (0.000018 : ℝ)) :=
  scale_factor_low_value [0.000018] 1 (by simp) (by norm_num [listMean])
    (by norm_num [listMean]) (le_refl 1)

/-- C6: `_calculate_scale_factor` returns 1 on the empty list, returns 1
whenever the mean is at least 0.01, returns 1 when the mean is zero, and
for a positive mean below 0.01 returns exactly
`10 ^ round(log10(10.0 / mean))` (`round` being Python 3's
round-half-to-even). -/
theorem calculate_scale_factor_spec (prices : List ℝ) :
    (prices = [] → calculate_scale_factor prices = 1) ∧
      (0.01 ≤ listMean prices → calculate_scale_factor prices = 1) ∧
      (listMean prices = 0 → calculate_scale_factor prices = 1) ∧
      (0 < listMean prices → listMean prices < 0.01 →
        calculate_scale_factor prices =
          (10 : ℝ) ^ pyRound (Real.logb 10 (10.0 / listMean prices))) := by
  refine ⟨?_, ?_, ?_, ?_⟩
  · rintro rfl
    rfl
  · intro h
    cases prices with
    | nil => rfl
    | cons p ps =>
      simp only [calculate_scale_factor]
      rw [if_pos h]
  · intro h
    cases prices with
    | nil => rfl
    | cons p ps =>
      have hpy0 : pyRound 0 = 0 := by
        unfold pyRound
        rw [if_neg (by rw [Int.fract_zero]; norm_num), round_zero]
      simp only [calculate_scale_factor]
      rw [if_neg (by rw [h]; norm_num), if_neg (by rw [h]; exact lt_irrefl 0),
        Real.logb_one, hpy0]
      norm_num
  · intro h0 h1
    cases prices with
    | nil =>
      exfalso
      rw [show listMean [] = 0 by simp [listMean]] at h0
      exact lt_irrefl 0 h0
    | cons p ps => exact calculate_scale_factor_eval p ps h0 h1

/-- C6 witness: a series with mean 25 (at least 0.01) gets scale factor 1. -/
theorem calculate_scale_factor_spec_witness :
    calculate_scale_factor [(25 : ℝ)] = 1 :=
  (calculate_scale_factor_spec [25]).2.1 (by norm_num [listMean])

/-! ### C10: the orchestrator never mutates its input list -/

theorem readRef_alloc {s : PyState} {v : List ℝ} {q : ℕ}
    (hq : q < s.heap.length) : readRef (allocRef s v).2 q = readRef s q := by
  unfold readRef allocRef
  simp only [List.getD_eq_getElem?_getD, List.getElem?_append_left hq]

theorem readRef_append_ne {s : PyState} {r q : ℕ} {x : ℝ} (h : q ≠ r) :
    readRef (appendRef s r x) q = readRef s q := by
  unfold appendRef writeRef readRef
  simp only [List.getD_eq_getElem?_getD, List.getElem?_set_ne (Ne.symm h)]

theorem xgbLoopH_succ_lt (model : List ℝ → ℝ) (d rc : ℕ) (s : PyState)
    (h : (readRef s rc).length < 22) :
    xgbLoopH model (d + 1) rc s =
      ((readRef s rc).getLastD 0 :: (xgbLoopH model d rc s).1,
        (xgbLoopH model d rc s).2) := by
  simp only [xgbLoopH]
  rw [if_pos h]

theorem xgbLoopH_succ_ge (model : List ℝ → ℝ) (d rc : ℕ) (s : PyState)
    (h : ¬ (readRef s rc).length < 22) :
    xgbLoopH model (d + 1) rc s =
      (model (readRef s rc) ::
          (xgbLoopH model d rc (appendRef s rc (model (readRef s rc)))).1,
        (xgbLoopH model d rc (appendRef s rc (model (readRef s rc)))).2) := by
  simp only [xgbLoopH]
  rw [if_neg h]

theorem xgbLoopH_frame (model : List ℝ → ℝ) (days : ℕ) :
    ∀ (rc : ℕ) (s : PyState) (q : ℕ), q ≠ rc →
      readRef (xgbLoopH model days rc s).2 q = readRef s q := by
  induction days with
  | zero =>
    intro rc s q _
    rfl
  | succ d ih =>
    intro rc s q hq
    by_cases hc : (readRef s rc).length < 22
    · rw [xgbLoopH_succ_lt model d rc s hc]
      exact ih rc s q hq
    · rw [xgbLoopH_succ_ge model d rc s hc]
      exact (ih rc _ q hq).trans (readRef_append_ne hq)

theorem xgboost_forecast_heap_frame (fit : List ℝ → Option (List ℝ → ℝ))
    (s : PyState) (rp q days : ℕ) (hq : q < s.heap.length) :
    readRef (xgboost_forecast_heap fit s rp days).2 q = readRef s q := by
  simp only [xgboost_forecast_heap]
  cases hf : fit (readRef s rp) with
  | none => rfl
  | some model =>
    have hne : q ≠ (allocRef s (readRef s rp)).1 := by
      simp only [allocRef]
      omega
    exact (xgbLoopH_frame model days (allocRef s (readRef s rp)).1
        (allocRef s (readRef s rp)).2 q hne).trans (readRef_alloc hq)

/-- C10: `generate_forecast` never mutates the caller's price list.  In the
heap model (the caller's list in cell `rp`, `_scale_prices` allocating a
fresh cell, `_xgboost_forecast` appending only to a fresh copy of its
input — which may alias the caller's cell when no scaling applies), the
list in cell `rp` after the call is exactly the list before the call. -/
theorem generate_forecast_no_mutation (env : ModelEnv) (s : PyState)
    (rp days : ℕ) (hr : rp < s.heap.length) :
    readRef (generate_forecast_heap env s rp days).2 rp = readRef s rp := by
  cases hread : readRef s rp with
  | nil => simp only [generate_forecast_heap, hread]
  | cons p ps =>
    simp only [generate_forecast_heap, hread]
    by_cases h30 : (p :: ps).length < 30
    · rw [if_pos h30]
      exact hread
    · rw [if_neg h30]
      set AL := (if 1 < calculate_scale_factor (p :: ps) then
          allocRef s (scale_prices (p :: ps) (calculate_scale_factor (p :: ps)))
        else (rp, s)) with hAL
      have hal1 : rp < AL.2.heap.length := by
        rw [hAL]
        split
        · simp only [allocRef, List.length_append, List.length_cons,
            List.length_nil]
          omega
        · exact hr
      have hal2 : readRef AL.2 rp = readRef s rp := by
        rw [hAL]
        split
        · exact readRef_alloc hr
        · rfl
      exact ((xgboost_forecast_heap_frame env.xgbFit AL.2 AL.1 rp days
        hal1).trans hal2).trans hread

/-- C10 witness: a two-element list in cell 0 of a one-cell heap is intact
after the call. -/
theorem generate_forecast_no_mutation_witness :
    readRef (generate_forecast_heap env0 ⟨[[(100 : ℝ), 110]]⟩ 0 7).2 0 =
      readRef ⟨[[(100 : ℝ), 110]]⟩ 0 :=
  generate_forecast_no_mutation env0 ⟨[[(100 : ℝ), 110]]⟩ 0 7 (by simp)
